import Mathlib

/-!
Verification of the adstxt-api core components against their specification.

The Go source is shallowly embedded: pure functions become Lean functions,
stateful code becomes explicit state passing, Go maps become insertion-ordered
association lists (insert overwrites an existing key, otherwise appends),
`time.Time` becomes a `Nat` instant (nanoseconds), byte slices become
`List Nat`, and fallible operations return `Except`.  The nondeterministic
completion order of the batch fan-out is made explicit as a permutation
parameter, and the cooperative per-unit deadline check as a per-domain flag.
-/

namespace AdsTxt

/-! ### Association lists (Go `map` embedding)

Go map assignment `m[k] = v` overwrites an existing key and otherwise adds the
key; lookup returns the stored value or a zero value.  We embed maps as
insertion-ordered association lists with exactly those operations. -/

/-- Lookup in an association list, first binding wins (keys are unique by
construction because `insertA` overwrites). -/
def lookupA {α : Type} : List (String × α) → String → Option α
  | [], _ => none
  | (k', v) :: rest, k => if k' = k then some v else lookupA rest k

/-- Go map assignment: overwrite the first binding of the key, else append. -/
def insertA {α : Type} : List (String × α) → String → α → List (String × α)
  | [], k, v => [(k, v)]
  | (k', v') :: rest, k, v =>
    if k' = k then (k, v) :: rest else (k', v') :: insertA rest k v

/-- Go `delete(m, k)`: remove the binding of the key, if any (keys are unique
in any state built by `insertA`, so removing every binding is the same map). -/
def eraseA {α : Type} (l : List (String × α)) (k : String) : List (String × α) :=
  l.filter (fun p => decide (p.1 ≠ k))

/-- Go `m[k]++` on a `map[string]int`: increment, treating absent as 0. -/
def bumpA : List (String × Nat) → String → List (String × Nat)
  | [], k => [(k, 1)]
  | (k', c) :: rest, k =>
    if k' = k then (k', c + 1) :: rest else (k', c) :: bumpA rest k

/-- Count stored for a key, with the Go zero value 0 for an absent key. -/
def countA (m : List (String × Nat)) (k : String) : Nat :=
  (lookupA m k).getD 0

/-! ### internal/adstxt/parser.go — `ParseAdsTxt`

The parser splits on newlines, trims whitespace, skips blank lines and lines
starting with `#`, and matches the anchored regular expression
`^([a-zA-Z0-9][a-zA-Z0-9.-]*\.[a-zA-Z0-9][a-zA-Z0-9-]*),` with Go's
(Perl-style, greedy with backtracking) submatch semantics; the captured
advertiser domain is lower-cased and counted. -/

/-- Go `unicode.IsSpace` (the rune set trimmed by `strings.TrimSpace`). -/
def goIsSpace (c : Char) : Bool :=
  let n := c.toNat
  (9 ≤ n && n ≤ 13) || n = 32 || n = 133 || n = 160 || n = 5760 ||
  (8192 ≤ n && n ≤ 8202) || n = 8232 || n = 8233 || n = 8239 || n = 8287 ||
  n = 12288

/-- Go `strings.TrimSpace` on a rune list. -/
def goTrim (cs : List Char) : List Char :=
  ((cs.dropWhile goIsSpace).reverse.dropWhile goIsSpace).reverse

/-- Go `strings.Split(content, "\n")`: split on newline, keeping empty fields. -/
def splitLines : List Char → List (List Char)
  | [] => [[]]
  | c :: cs =>
    if c = '\n' then [] :: splitLines cs
    else match splitLines cs with
      | [] => [[c]]
      | l :: ls => (c :: l) :: ls

/-- The character class `[a-zA-Z0-9]` (Go regexp, ASCII). -/
def isAlnum (c : Char) : Bool :=
  (('a' ≤ c && c ≤ 'z') || ('A' ≤ c && c ≤ 'Z') || ('0' ≤ c && c ≤ '9'))

/-- The character class `[a-zA-Z0-9.-]`. -/
def isDomMid (c : Char) : Bool := isAlnum c || c = '.' || c = '-'

/-- The character class `[a-zA-Z0-9-]`. -/
def isDomEnd (c : Char) : Bool := isAlnum c || c = '-'

/-- Greedy Kleene star over a single-character class with backtracking, in
continuation style: consume as many characters as possible, then give back one
at a time while the continuation fails (Go regexp submatch semantics). -/
def starGreedy {α : Type} (p : Char → Bool) : List Char → (List Char → Option α) → Option α
  | [], k => k []
  | c :: cs, k =>
    if p c then
      match starGreedy p cs k with
      | some r => some r
      | none => k (c :: cs)
    else k (c :: cs)

/-- Tail of the pattern after the literal dot: `[a-zA-Z0-9][a-zA-Z0-9-]*,`.
Returns the length of the remaining input starting at the comma. -/
def matchTail2 : List Char → Option Nat
  | [] => none
  | c :: rest =>
    if isAlnum c then
      starGreedy isDomEnd rest (fun s =>
        match s with
        | ',' :: t => some (t.length + 1)
        | _ => none)
    else none

/-- Middle of the pattern: `[a-zA-Z0-9.-]*\.` followed by `matchTail2`. -/
def matchTail1 (cs : List Char) : Option Nat :=
  starGreedy isDomMid cs (fun s =>
    match s with
    | '.' :: t => matchTail2 t
    | _ => none)

/-- `linePattern.FindStringSubmatch`: the anchored match of
`^([a-zA-Z0-9][a-zA-Z0-9.-]*\.[a-zA-Z0-9][a-zA-Z0-9-]*),` returning the
captured group (everything before the comma), or `none`. -/
def matchDomain (cs : List Char) : Option (List Char) :=
  match cs with
  | [] => none
  | c :: rest =>
    if isAlnum c then
      match matchTail1 rest with
      | some suffixLen => some ((c :: rest).take ((c :: rest).length - suffixLen))
      | none => none
    else none

/-- Go `strings.ToLower` restricted to ASCII; the captured group only contains
ASCII characters (the regexp classes are ASCII), where the two agree. -/
def asciiLower (c : Char) : Char :=
  if 'A' ≤ c && c ≤ 'Z' then Char.ofNat (c.toNat + 32) else c

/-- Processing of one line of the ads.txt body (the loop body of
`ParseAdsTxt`): trim, skip blank and `#` lines, match, lower-case, count. -/
def parseLine (m : List (String × Nat)) (line : List Char) : List (String × Nat) :=
  let t := goTrim line
  if t = [] then m
  else if t.head? = some '#' then m
  else match matchDomain t with
    | some d => bumpA m (String.mk (d.map asciiLower))
    | none => m

/-- `ParseAdsTxt` (internal/adstxt/parser.go): advertiser domain → count. -/
def ParseAdsTxt (content : String) : List (String × Nat) :=
  (splitLines content.toList).foldl parseLine []

/-- The per-line outcome of the parser: `some d` when the (trimmed) line is
neither blank nor a comment and matches the line pattern with lower-cased
capture `d`; `none` when the parser skips the line. -/
def lineDomain (line : List Char) : Option String :=
  let t := goTrim line
  if t = [] then none
  else if t.head? = some '#' then none
  else (matchDomain t).map (fun d => String.mk (d.map asciiLower))

theorem countA_bumpA (m : List (String × Nat)) (k d : String) :
    countA (bumpA m k) d = countA m d + (if k = d then 1 else 0) := by
  induction m with
  | nil =>
    by_cases h : k = d <;> simp [bumpA, countA, lookupA, h]
  | cons p rest ih =>
    obtain ⟨k', c⟩ := p
    by_cases h1 : k' = k
    · subst h1
      by_cases h2 : k' = d <;> simp [bumpA, countA, lookupA, h2]
    · by_cases h2 : k' = d
      · subst h2
        have hkd : ¬ k = k' := fun h => h1 h.symm
        simp [bumpA, countA, lookupA, h1, hkd, if_neg hkd]
      · simpa [bumpA, countA, lookupA, h1, h2] using ih

theorem parseLine_eq_lineDomain (m : List (String × Nat)) (line : List Char) :
    parseLine m line = match lineDomain line with
      | some k => bumpA m k
      | none => m := by
  unfold parseLine lineDomain
  by_cases h1 : goTrim line = []
  · simp [h1]
  · by_cases h2 : (goTrim line).head? = some '#'
    · simp [h1, h2]
    · cases h3 : matchDomain (goTrim line) <;> simp [h1, h2, h3]

theorem countA_foldl_parseLine (ls : List (List Char)) (m : List (String × Nat)) (d : String) :
    countA (ls.foldl parseLine m) d = countA m d + (ls.filterMap lineDomain).count d := by
  induction ls generalizing m with
  | nil => simp
  | cons line rest ih =>
    rw [List.foldl_cons, ih, parseLine_eq_lineDomain]
    cases h : lineDomain line with
    | none => simp [List.filterMap_cons, h]
    | some k =>
      rw [List.filterMap_cons, h, List.count_cons, countA_bumpA]
      by_cases hkd : k = d
      · simp only [hkd, if_true, beq_self_eq_true, if_pos]
        omega
      · simp [hkd]

/-- C9: the parser skips blank lines and `#`-comment lines and counts each
remaining matching line under the lower-cased captured advertiser domain: the
count stored for a domain `d` equals the number of lines whose processed
outcome is `d` (so a token repeated k times case-insensitively counts k, and
skipped or malformed lines contribute nothing); and the concrete content
`"google.com, pub-1, DIRECT\nAPPNEXUS.com, 2, RESELLER\ngoogle.com, pub-2,
DIRECT\n# comment\nnotadomainline"` parses to
`{"google.com": 2, "appnexus.com": 1}`. -/
theorem parse_counts_matching_lines :
    (∀ (content : String) (d : String),
      countA (ParseAdsTxt content) d
        = ((splitLines content.toList).filterMap lineDomain).count d) ∧
    ParseAdsTxt "google.com, pub-1, DIRECT\nAPPNEXUS.com, 2, RESELLER\ngoogle.com, pub-2, DIRECT\n# comment\nnotadomainline"
      = [("google.com", 2), ("appnexus.com", 1)] := by
  constructor
  · intro content d
    simpa [ParseAdsTxt, countA, lookupA]
      using countA_foldl_parseLine (splitLines content.toList) [] d
  · decide

/-! ### Go string comparison and the advertiser ranking

Go's `<` on strings is bytewise lexicographic; on the ASCII domains produced
by the parser this coincides with codepoint-lexicographic order, which we
define structurally so that it evaluates in the kernel. -/

/-- Lexicographic strict order on rune lists (Go `<` on strings). -/
def lexLt : List Char → List Char → Bool
  | [], [] => false
  | [], _ :: _ => true
  | _ :: _, [] => false
  | a :: as, b :: bs =>
    if a < b then true
    else if a = b then lexLt as bs
    else false

/-- Go string `<`. -/
def strLt (a b : String) : Bool := lexLt a.toList b.toList

theorem lexLt_irrefl (as : List Char) : lexLt as as = false := by
  induction as with
  | nil => rfl
  | cons a as ih => simp [lexLt, ih, lt_irrefl]

theorem lexLt_asymm (as bs : List Char) (h : lexLt as bs = true) :
    lexLt bs as = false := by
  induction as generalizing bs with
  | nil => cases bs <;> simp [lexLt] at h ⊢
  | cons a as ih =>
    cases bs with
    | nil => simp [lexLt] at h
    | cons b bs =>
      simp only [lexLt] at h ⊢
      rcases lt_trichotomy a b with hab | hab | hab
      · simp [hab, not_lt_of_lt hab, ne_of_gt hab]
      · subst hab
        simp only [lt_irrefl, if_false, if_true, if_pos rfl, if_neg (lt_irrefl a)] at h ⊢
        exact ih bs h
      · simp [hab, not_lt_of_lt hab, ne_of_gt hab] at h

theorem lexLt_trans (as bs cs : List Char) (h1 : lexLt as bs = true)
    (h2 : lexLt bs cs = true) : lexLt as cs = true := by
  induction as generalizing bs cs with
  | nil =>
    cases bs with
    | nil => simp [lexLt] at h1
    | cons b bs => cases cs <;> simp [lexLt] at h2 ⊢
  | cons a as ih =>
    cases bs with
    | nil => simp [lexLt] at h1
    | cons b bs =>
      cases cs with
      | nil => simp [lexLt] at h2
      | cons c cs =>
        simp only [lexLt] at h1 h2 ⊢
        rcases lt_trichotomy a b with hab | hab | hab
        · rcases lt_trichotomy b c with hbc | hbc | hbc
          · simp [lt_trans hab hbc]
          · subst hbc; simp [hab]
          · simp [hbc, not_lt_of_lt hbc, ne_of_gt hbc] at h2
        · subst hab
          rcases lt_trichotomy a c with hac | hac | hac
          · simp [hac]
          · subst hac
            simp only [lt_irrefl, if_neg (lt_irrefl a), if_pos rfl] at h1 h2 ⊢
            exact ih bs cs h1 h2
          · simp [hac, not_lt_of_lt hac, ne_of_gt hac] at h2
        · simp [hab, not_lt_of_lt hab, ne_of_gt hab] at h1

theorem lexLt_connex (as bs : List Char) (h : as ≠ bs) :
    lexLt as bs = true ∨ lexLt bs as = true := by
  induction as generalizing bs with
  | nil => cases bs <;> simp_all [lexLt]
  | cons a as ih =>
    cases bs with
    | nil => simp [lexLt]
    | cons b bs =>
      rcases lt_trichotomy a b with hab | hab | hab
      · left; simp [lexLt, hab]
      · subst hab
        have hne : as ≠ bs := by intro he; exact h (by rw [he])
        rcases ih bs hne with h' | h'
        · left; simp [lexLt, h', lt_irrefl]
        · right; simp [lexLt, h', lt_irrefl]
      · right; simp [lexLt, hab]

theorem strings_eq_of_toList_eq {a b : String} (h : a.toList = b.toList) :
    a = b := by
  have h' : a.data = b.data := h
  exact congrArg String.mk h'

/-- `AdvertiserCount` (internal/adstxt/parser.go). -/
structure AdvertiserCount where
  domain : String
  count : Nat
deriving DecidableEq, Repr

/-- `MapToSlice` (internal/adstxt/parser.go): the advertiser map as a list of
(domain, count) pairs, in map-iteration order (modelled as insertion order;
the subsequent sort makes the final ranking independent of this order). -/
def MapToSlice (m : List (String × Nat)) : List AdvertiserCount :=
  m.map (fun p => ⟨p.1, p.2⟩)

/-- The `less` closure passed to `sort.Slice` in `analyzeDomain`
(src/unnamed/part_003 lines 284-289): ties on count break by ascending
domain, otherwise larger count first. -/
def advLess (a b : AdvertiserCount) : Bool :=
  if a.count = b.count then strLt a.domain b.domain else decide (b.count < a.count)

/-- The non-strict order induced by `advLess`; `sort.Slice` postconditions are
stated with respect to it. -/
def leAdv (a b : AdvertiserCount) : Bool := !advLess b a

/-- The ranking step of `analyzeDomain`: a comparison sort by `advLess`.  Go's
`sort.Slice` is an unspecified (unstable) comparison sort; because `advLess`
is a strict total order on entries with pairwise distinct domains, every
comparison sort produces the same output there, so a merge sort is a faithful
embedding. -/
def sortAdvertisers (l : List AdvertiserCount) : List AdvertiserCount :=
  l.mergeSort leAdv

/-- Strict ranking relation of the specification: strictly descending count,
ties broken by ascending lexical domain order. -/
def advStrict (a b : AdvertiserCount) : Prop :=
  b.count < a.count ∨ (a.count = b.count ∧ strLt a.domain b.domain = true)

theorem advLess_asymm (a b : AdvertiserCount) (h : advLess a b = true) :
    advLess b a = false := by
  unfold advLess at h ⊢
  by_cases hc : a.count = b.count
  · simp only [hc, if_pos rfl] at h
    simp only [hc.symm, if_pos rfl]
    exact lexLt_asymm _ _ h
  · have hc' : ¬ b.count = a.count := fun he => hc he.symm
    simp only [if_neg hc] at h
    simp only [if_neg hc']
    simp only [decide_eq_true_eq] at h
    simp only [decide_eq_false_iff_not]
    omega

theorem advLess_trans (a b c : AdvertiserCount) (h1 : advLess a b = true)
    (h2 : advLess b c = true) : advLess a c = true := by
  unfold advLess at h1 h2 ⊢
  by_cases hab : a.count = b.count <;> by_cases hbc : b.count = c.count
  · simp only [hab, hbc, if_pos rfl] at h1 h2
    simp only [hab.trans hbc, if_pos rfl]
    exact lexLt_trans _ _ _ h1 h2
  · simp only [if_neg hbc] at h2
    have : ¬ a.count = c.count := by
      simp only [decide_eq_true_eq] at h2; omega
    simp only [if_neg this, decide_eq_true_eq]
    simp only [decide_eq_true_eq] at h2; omega
  · simp only [if_neg hab] at h1
    have : ¬ a.count = c.count := by
      simp only [decide_eq_true_eq] at h1; omega
    simp only [if_neg this, decide_eq_true_eq]
    simp only [decide_eq_true_eq] at h1; omega
  · simp only [if_neg hab] at h1
    simp only [if_neg hbc] at h2
    have : ¬ a.count = c.count := by
      simp only [decide_eq_true_eq] at h1 h2; omega
    simp only [if_neg this, decide_eq_true_eq]
    simp only [decide_eq_true_eq] at h1 h2; omega

theorem advLess_eq_key_left (a b c : AdvertiserCount) (hcount : a.count = b.count)
    (hdom : a.domain = b.domain) : advLess a c = advLess b c := by
  unfold advLess
  rw [hcount, hdom]

theorem advLess_connex (a b : AdvertiserCount) (h1 : advLess a b = false)
    (h2 : advLess b a = false) : a.count = b.count ∧ a.domain = b.domain := by
  unfold advLess at h1 h2
  by_cases hc : a.count = b.count
  · refine ⟨hc, ?_⟩
    simp only [hc, if_pos rfl] at h1
    simp only [hc.symm, if_pos rfl] at h2
    by_contra hne
    have : a.domain.toList ≠ b.domain.toList := by
      intro he; exact hne (strings_eq_of_toList_eq he)
    rcases lexLt_connex _ _ this with h' | h'
    · exact absurd h' (by simpa [strLt] using h1)
    · exact absurd h' (by simpa [strLt] using h2)
  · exfalso
    have hc' : ¬ b.count = a.count := fun he => hc he.symm
    simp only [if_neg hc, decide_eq_false_iff_not] at h1
    simp only [if_neg hc', decide_eq_false_iff_not] at h2
    omega

theorem leAdv_trans (a b c : AdvertiserCount) (h1 : leAdv a b = true)
    (h2 : leAdv b c = true) : leAdv a c = true := by
  unfold leAdv at h1 h2 ⊢
  simp only [Bool.not_eq_true'] at h1 h2 ⊢
  by_contra hca
  have hca' : advLess c a = true := by
    cases h : advLess c a
    · exact absurd h hca
    · rfl
  by_cases hcb : advLess c b = true
  · rw [hcb] at h2; exact Bool.noConfusion h2
  · have hcb' : advLess c b = false := by
      cases h : advLess c b
      · rfl
      · exact absurd h hcb
    by_cases hbc : advLess b c = true
    · have := advLess_trans _ _ _ hbc hca'
      rw [this] at h1; exact Bool.noConfusion h1
    · have hbc' : advLess b c = false := by
        cases h : advLess b c
        · rfl
        · exact absurd h hbc
      obtain ⟨hcnt, hdom⟩ := advLess_connex _ _ hcb' hbc'
      rw [advLess_eq_key_left c b a hcnt hdom] at hca'
      rw [h1] at hca'
      exact Bool.noConfusion hca'

theorem leAdv_total (a b : AdvertiserCount) : (leAdv a b || leAdv b a) = true := by
  unfold leAdv
  cases h : advLess b a
  · simp
  · simp [advLess_asymm _ _ h]

theorem advStrict_of_leAdv_of_ne (a b : AdvertiserCount)
    (h : leAdv a b = true) (hne : a.domain ≠ b.domain) : advStrict a b := by
  unfold leAdv at h
  simp only [Bool.not_eq_true'] at h
  unfold advLess at h
  rcases lt_trichotomy a.count b.count with hc | hc | hc
  · exfalso
    have : ¬ b.count = a.count := by omega
    simp only [if_neg this, decide_eq_false_iff_not] at h
    omega
  · right
    refine ⟨hc, ?_⟩
    simp only [hc.symm, if_pos rfl] at h
    have hld : a.domain.toList ≠ b.domain.toList := by
      intro he; exact hne (strings_eq_of_toList_eq he)
    rcases lexLt_connex _ _ hld with h' | h'
    · exact h'
    · exact absurd h' (by simpa [strLt] using h)
  · left; exact hc

theorem advStrict_asymm (a b : AdvertiserCount) (h1 : advStrict a b)
    (h2 : advStrict b a) : False := by
  rcases h1 with h1 | ⟨hc1, hd1⟩ <;> rcases h2 with h2 | ⟨hc2, hd2⟩
  · omega
  · omega
  · omega
  · unfold strLt at hd1 hd2
    rw [lexLt_asymm _ _ hd1] at hd2
    exact Bool.noConfusion hd2

instance : IsAntisymm AdvertiserCount advStrict :=
  ⟨fun a b h1 h2 => (advStrict_asymm a b h1 h2).elim⟩

theorem pairwise_ne_domain_of_nodup (m : List (String × Nat))
    (hnd : (m.map Prod.fst).Nodup) :
    (MapToSlice m).Pairwise (fun x y => x.domain ≠ y.domain) := by
  unfold MapToSlice
  rw [List.pairwise_map]
  rw [List.Nodup, List.pairwise_map] at hnd
  exact hnd

theorem sorted_sortAdvertisers (l : List AdvertiserCount)
    (hne : l.Pairwise (fun x y => x.domain ≠ y.domain)) :
    (sortAdvertisers l).Pairwise advStrict := by
  have hperm : (sortAdvertisers l).Perm l := List.mergeSort_perm l leAdv
  have hle : (sortAdvertisers l).Pairwise (fun a b => leAdv a b = true) :=
    List.sorted_mergeSort (fun a b c => leAdv_trans a b c) leAdv_total l
  have hne' : (sortAdvertisers l).Pairwise (fun x y => x.domain ≠ y.domain) :=
    (hperm.pairwise_iff (fun h => Ne.symm h)).mpr hne
  exact (hle.and hne').imp (fun h => advStrict_of_leAdv_of_ne _ _ h.1 h.2)

/-- C6: on a cache miss the Domain Analyzer ranks the parsed advertiser map by
strictly descending occurrence count, with count ties broken by ascending
lexical order of advertiser domain; because that ordering is a strict total
order on entries with pairwise distinct domains (as map keys are), the ranked
list is the unique sorted permutation of the map's entries — deterministic for
identical input, whatever completion order `sort.Slice` or the map iteration
uses. -/
theorem ranking_sorted_deterministic (m : List (String × Nat))
    (hnd : (m.map Prod.fst).Nodup) :
    (sortAdvertisers (MapToSlice m)).Perm (MapToSlice m) ∧
    (sortAdvertisers (MapToSlice m)).Pairwise advStrict ∧
    ∀ l', l'.Perm (MapToSlice m) → l'.Pairwise advStrict →
      l' = sortAdvertisers (MapToSlice m) := by
  have hperm : (sortAdvertisers (MapToSlice m)).Perm (MapToSlice m) :=
    List.mergeSort_perm (MapToSlice m) leAdv
  have hsorted : (sortAdvertisers (MapToSlice m)).Pairwise advStrict :=
    sorted_sortAdvertisers _ (pairwise_ne_domain_of_nodup m hnd)
  refine ⟨hperm, hsorted, fun l' hp hs => ?_⟩
  exact List.eq_of_perm_of_sorted (hp.trans hperm.symm) hs hsorted

/-- Witness for C6 at the concrete advertiser map of the specification's
worked example. -/
theorem ranking_sorted_deterministic_example :
    (sortAdvertisers (MapToSlice [("google.com", 2), ("appnexus.com", 1)])).Perm
      (MapToSlice [("google.com", 2), ("appnexus.com", 1)]) ∧
    (sortAdvertisers (MapToSlice [("google.com", 2), ("appnexus.com", 1)])).Pairwise advStrict ∧
    ∀ l', l'.Perm (MapToSlice [("google.com", 2), ("appnexus.com", 1)]) →
      l'.Pairwise advStrict →
      l' = sortAdvertisers (MapToSlice [("google.com", 2), ("appnexus.com", 1)]) :=
  ranking_sorted_deterministic [("google.com", 2), ("appnexus.com", 1)] (by decide)

/-! ### internal/api handler (src/unnamed/part_003) — validation and batch

`AnalyzeBatch` validates the request size synchronously, then starts one
goroutine per domain; each unit checks the shared deadline, validates its
domain, analyzes it, and records exactly one outcome under the shared mutex.
The embedding makes the nondeterminism explicit: `order` is the completion
order of the units (any permutation of the request), and `timedOut d` is
whether unit `d` found the shared deadline already elapsed at its entry
check.  `analyze` is the per-domain analysis (the `analyzeDomain` pipeline,
abstracted so the theorem quantifies over its outcomes). -/

/-- The URL-structural characters rejected by `validateDomain`
(`strings.ContainsAny(domain, "/:@?#[]!$&amp;'()*+,;= ")`; `Char.ofNat 39` is the
apostrophe). -/
def urlStructuralChars : List Char :=
  ['/', ':', '@', '?', '#', '[', ']', '!', '$', '&', Char.ofNat 39,
   '(', ')', '*', '+', ',', ';', '=', ' ']

/-- `validateDomain` (src/unnamed/part_003 lines 77-98).  Go `len` is the
UTF-8 byte length. -/
def validateDomain (domain : String) : Except String Unit :=
  if domain = "" then .error "domain cannot be empty"
  else if 253 < domain.utf8ByteSize then .error "domain too long"
  else if domain.toList.any (fun c => urlStructuralChars.contains c) then
    .error "invalid domain format"
  else if ¬ domain.toList.contains '.' then .error "invalid domain format"
  else .ok ()

/-- `SingleAnalysisResponse` (src/unnamed/part_003). -/
structure SingleAnalysisResponse where
  domain : String
  totalAdvertisers : Nat
  advertisers : List AdvertiserCount
  cached : Bool
  timestamp : String
deriving DecidableEq, Repr

/-- `BatchAnalysisResponse` (src/unnamed/part_003); the `Errors` Go map is an
insertion-ordered association list. -/
structure BatchAnalysisResponse where
  results : List SingleAnalysisResponse
  errors : List (String × String)
deriving DecidableEq, Repr

/-- The body of one concurrent unit of `AnalyzeBatch`, up to the outcome it
will record: cooperative deadline check, then syntactic validation, then
analysis. -/
def unitOutcome (analyze : String → Except String SingleAnalysisResponse)
    (timedOut : String → Bool) (d : String) :
    Except String SingleAnalysisResponse :=
  if timedOut d then .error "request timeout"
  else match validateDomain d with
    | .error e => .error ("invalid domain: " ++ e)
    | .ok _ => analyze d

/-- The insert step performed under the shared mutex: an error goes into the
errors map under the unit's domain, a success is appended to the results. -/
def recordOutcome (resp : BatchAnalysisResponse) (d : String)
    (o : Except String SingleAnalysisResponse) : BatchAnalysisResponse :=
  match o with
  | .error e => { resp with errors := insertA resp.errors d e }
  | .ok r => { resp with results := resp.results ++ [r] }

/-- `AnalyzeBatch` (src/unnamed/part_003 lines 130-206) from the point where
the domain list is known: precondition checks, then the fan-out/fan-in whose
units record their outcomes in completion order `order`. -/
def AnalyzeBatch (analyze : String → Except String SingleAnalysisResponse)
    (timedOut : String → Bool) (domains : List String) (order : List String) :
    Except String BatchAnalysisResponse :=
  if domains.length = 0 then .error "domains array cannot be empty"
  else if 50 < domains.length then .error "maximum 50 domains per batch request"
  else .ok (order.foldl
    (fun resp d => recordOutcome resp d (unitOutcome analyze timedOut d))
    ⟨[], []⟩)

/-- The multiset of domains accounted for in a batch response: domains of the
successes plus keys of the errors map. -/
def coveredDomains (b : BatchAnalysisResponse) : List String :=
  b.results.map (fun r => r.domain) ++ b.errors.map Prod.fst

theorem insertA_of_not_mem {α : Type} (l : List (String × α)) (k : String)
    (v : α) (h : k ∉ l.map Prod.fst) : insertA l k v = l ++ [(k, v)] := by
  induction l with
  | nil => rfl
  | cons p rest ih =>
    simp only [List.map_cons, List.mem_cons] at h
    push_neg at h
    have hne : ¬ p.1 = k := fun he => h.1 he.symm
    simp [insertA, hne, ih h.2]

theorem covered_recordOutcome (b : BatchAnalysisResponse) (d : String)
    (o : Except String SingleAnalysisResponse)
    (hd : d ∉ b.errors.map Prod.fst)
    (hok : ∀ r, o = .ok r → r.domain = d) :
    (coveredDomains (recordOutcome b d o)).Perm (coveredDomains b ++ [d]) ∧
    ∀ e, e ∈ (recordOutcome b d o).errors.map Prod.fst →
      e ∈ b.errors.map Prod.fst ∨ e = d := by
  cases o with
  | error msg =>
    have hrec : recordOutcome b d (Except.error msg)
        = { b with errors := insertA b.errors d msg } := rfl
    rw [hrec]
    unfold coveredDomains
    rw [insertA_of_not_mem _ _ _ hd]
    constructor
    · simp [List.append_assoc]
    · intro e he
      simpa using he
  | ok r =>
    have hr : r.domain = d := hok r rfl
    have hrec : recordOutcome b d (Except.ok r)
        = { b with results := b.results ++ [r] } := rfl
    rw [hrec]
    unfold coveredDomains
    constructor
    · simp only [List.map_append, List.map_cons, List.map_nil, hr]
      rw [List.append_assoc, List.append_assoc]
      exact List.Perm.append_left _ List.perm_append_comm
    · intro e he
      exact Or.inl he

theorem covered_foldl (analyze : String → Except String SingleAnalysisResponse)
    (timedOut : String → Bool)
    (hdom : ∀ d r, analyze d = .ok r → r.domain = d) :
    ∀ (order : List String) (b : BatchAnalysisResponse),
    order.Nodup →
    (∀ d ∈ order, d ∉ b.errors.map Prod.fst) →
    (coveredDomains (order.foldl
        (fun resp d => recordOutcome resp d (unitOutcome analyze timedOut d)) b)).Perm
      (coveredDomains b ++ order) := by
  intro order
  induction order with
  | nil => intro b _ _; simp
  | cons d rest ih =>
    intro b hnd hdisj
    rw [List.foldl_cons]
    have hd : d ∉ b.errors.map Prod.fst := hdisj d (List.mem_cons_self d rest)
    have hok : ∀ r, unitOutcome analyze timedOut d = .ok r → r.domain = d := by
      intro r h
      unfold unitOutcome at h
      by_cases ht : timedOut d
      · simp [ht] at h
      · simp only [ht, if_neg, if_false, Bool.false_eq_true] at h
        cases hv : validateDomain d with
        | error e => rw [hv] at h; exact Except.noConfusion h
        | ok u => rw [hv] at h; exact hdom d r h
    obtain ⟨hstep, hkeys⟩ := covered_recordOutcome b d _ hd hok
    rw [List.nodup_cons] at hnd
    have hrec := ih (recordOutcome b d (unitOutcome analyze timedOut d)) hnd.2
      (by
        intro e he hmem
        rcases hkeys e hmem with h' | h'
        · exact hdisj e (List.mem_cons_of_mem d he) h'
        · exact hnd.1 (h' ▸ he))
    refine hrec.trans ?_
    refine (hstep.append_right rest).trans ?_
    simp

/-- C1: for a batch of `N` distinct domains with `1 ≤ N ≤ 50`, `AnalyzeBatch`
accepts the request and produces a response in which the requested domain set
equals, as a multiset, the union of the successes' domains and the error-map
keys — every requested domain appears exactly once, no other domain appears —
regardless of the completion order of the concurrent per-domain units
(`order` ranges over all permutations of the request) and of their deadline
checks.  The hypothesis `hdom` records that the analyzer labels a success
with the domain it was asked about, which `analyzeDomain` guarantees. -/
theorem batch_covers_exactly_requested
    (analyze : String → Except String SingleAnalysisResponse)
    (timedOut : String → Bool) (domains order : List String)
    (hnd : domains.Nodup) (hlen1 : 1 ≤ domains.length)
    (hlen2 : domains.length ≤ 50) (hperm : order.Perm domains)
    (hdom : ∀ d r, analyze d = .ok r → r.domain = d) :
    ∃ b, AnalyzeBatch analyze timedOut domains order = .ok b ∧
      (b.results.map (fun r => r.domain) ++ b.errors.map Prod.fst).Perm domains := by
  have h0 : ¬ domains.length = 0 := by omega
  have h50 : ¬ 50 < domains.length := by omega
  refine ⟨_, by rw [AnalyzeBatch, if_neg h0, if_neg h50], ?_⟩
  have hnd' : order.Nodup := (hperm.nodup_iff).mpr hnd
  have h := covered_foldl analyze timedOut hdom order ⟨[], []⟩ hnd' (by
    intro d _ hmem
    simp [coveredDomains] at hmem)
  have h' : (coveredDomains (order.foldl
      (fun resp d => recordOutcome resp d (unitOutcome analyze timedOut d))
      ⟨[], []⟩)).Perm order := by
    simpa [coveredDomains] using h
  exact h'.trans hperm

/-- Witness for C1: two distinct domains, recorded in reversed completion
order; one fails validation, one succeeds. -/
theorem batch_covers_exactly_requested_example :
    ∃ b, AnalyzeBatch (fun d => .ok ⟨d, 0, [], false, "t"⟩) (fun _ => false)
        ["valid.com", "http://bad.com"] ["http://bad.com", "valid.com"] = .ok b ∧
      (b.results.map (fun r => r.domain) ++ b.errors.map Prod.fst).Perm
        ["valid.com", "http://bad.com"] :=
  batch_covers_exactly_requested _ _ _ _ (by decide) (by decide) (by decide)
    (by decide) (fun d r h => by cases h; rfl)

/-- C5: a batch request with an empty domain list, or with more than 50
domains, is rejected synchronously: the result is the corresponding error and
is the same whatever the analyzer, the deadline flags or the unit completion
order are — no per-domain unit contributes anything to it, so no fetch is
attempted and no per-domain outcome is recorded. -/
theorem batch_rejected_before_any_work (domains : List String)
    (h : domains = [] ∨ 50 < domains.length) :
    ∃ msg, ∀ analyze timedOut order,
      AnalyzeBatch analyze timedOut domains order = .error msg := by
  rcases h with h | h
  · refine ⟨"domains array cannot be empty", fun analyze timedOut order => ?_⟩
    rw [AnalyzeBatch, if_pos (by simp [h])]
  · refine ⟨"maximum 50 domains per batch request", fun analyze timedOut order => ?_⟩
    rw [AnalyzeBatch, if_neg (by omega), if_pos h]

/-- Witness for C5 at a batch of 51 copies of a domain. -/
theorem batch_rejected_before_any_work_example :
    ∃ msg, ∀ analyze timedOut order,
      AnalyzeBatch analyze timedOut (List.replicate 51 "a.com") order = .error msg :=
  batch_rejected_before_any_work (List.replicate 51 "a.com") (by simp)

/-! ### `analyzeDomain` (src/unnamed/part_003 lines 251-307) — cache-aside

The cache, the JSON codec and the fetch collaborator are abstracted as
parameters; the parse/rank steps are the embeddings above.  The state `σ` is
the cache backend's state, threaded explicitly; `set` returns its error (the
code only logs it) together with the successor state. -/

/-- The cache operations used by `analyzeDomain`. -/
structure CacheIface (σ : Type) where
  get : σ → String → Except String (List Nat)
  set : σ → String → List Nat → Nat → Except String Unit × σ

/-- The freshly computed response on a cache miss: fetched content parsed,
ranked, wrapped with `Cached = false` and the current timestamp. -/
def freshResult (now domain content : String) : SingleAnalysisResponse :=
  let advertisers := sortAdvertisers (MapToSlice (ParseAdsTxt content))
  { domain := domain, totalAdvertisers := advertisers.length,
    advertisers := advertisers, cached := false, timestamp := now }

/-- The miss path of `analyzeDomain`: fetch, parse, rank, best-effort cache
write (its error is logged, never returned). -/
def analyzeFetch {σ : Type} (C : CacheIface σ)
    (encode : SingleAnalysisResponse → Option (List Nat))
    (fetch : String → Except String String) (cacheTTL : Nat) (now : String)
    (s : σ) (domain : String) : Except String SingleAnalysisResponse × σ :=
  match fetch domain with
  | .error e => (.error ("failed to fetch ads.txt: " ++ e), s)
  | .ok content =>
    let result := freshResult now domain content
    match encode result with
    | some data => (.ok result, (C.set s ("adstxt:" ++ domain) data cacheTTL).2)
    | none => (.ok result, s)

/-- `analyzeDomain`: cache-aside lookup under key `adstxt:<domain>`; a hit
that decodes is returned with `Cached = true`; a miss or an undecodable hit
falls through to the fetch path. -/
def analyzeDomain {σ : Type} (C : CacheIface σ)
    (decode : List Nat → Option SingleAnalysisResponse)
    (encode : SingleAnalysisResponse → Option (List Nat))
    (fetch : String → Except String String) (cacheTTL : Nat) (now : String)
    (s : σ) (domain : String) : Except String SingleAnalysisResponse × σ :=
  match C.get s ("adstxt:" ++ domain) with
  | .ok data =>
    match decode data with
    | some r => (.ok { r with cached := true }, s)
    | none => analyzeFetch C encode fetch cacheTTL now s domain
  | .error _ => analyzeFetch C encode fetch cacheTTL now s domain

theorem analyzeFetch_fst {σ : Type} (C : CacheIface σ) (encode)
    (fetch : String → Except String String) (cacheTTL : Nat) (now : String)
    (s : σ) (domain content : String) (hfetch : fetch domain = .ok content) :
    (analyzeFetch C encode fetch cacheTTL now s domain).1
      = .ok (freshResult now domain content) := by
  unfold analyzeFetch
  rw [hfetch]
  cases h : encode (freshResult now domain content) <;> simp [h]

/-- C7: on a cache miss (or a hit that fails to decode) followed by a
successful fetch, `analyzeDomain` returns the freshly computed result with no
error, and the returned value does not depend on the cache's `set` operation
at all — in particular a failing cache write cannot fail the analysis. -/
theorem cache_write_failure_never_fails_analyze {σ : Type} (C : CacheIface σ)
    (decode : List Nat → Option SingleAnalysisResponse)
    (encode : SingleAnalysisResponse → Option (List Nat))
    (fetch : String → Except String String) (cacheTTL : Nat) (now : String)
    (s : σ) (domain content : String)
    (hmiss : ∀ data, C.get s ("adstxt:" ++ domain) = .ok data → decode data = none)
    (hfetch : fetch domain = .ok content) :
    (analyzeDomain C decode encode fetch cacheTTL now s domain).1
      = .ok (freshResult now domain content) ∧
    ∀ set2, (analyzeDomain { C with set := set2 } decode encode fetch
        cacheTTL now s domain).1 = .ok (freshResult now domain content) := by
  constructor
  · unfold analyzeDomain
    cases hg : C.get s ("adstxt:" ++ domain) with
    | error e => exact analyzeFetch_fst C encode fetch cacheTTL now s domain content hfetch
    | ok data =>
      simp only [hmiss data hg]
      exact analyzeFetch_fst C encode fetch cacheTTL now s domain content hfetch
  · intro set2
    unfold analyzeDomain
    cases hg : CacheIface.get { C with set := set2 } s ("adstxt:" ++ domain) with
    | error e =>
      exact analyzeFetch_fst _ encode fetch cacheTTL now s domain content hfetch
    | ok data =>
      simp only [hmiss data hg]
      exact analyzeFetch_fst _ encode fetch cacheTTL now s domain content hfetch

/-- Witness for C7: an always-missing cache whose write always fails; the
analysis still returns the fresh result. -/
theorem cache_write_failure_never_fails_analyze_example :
    (analyzeDomain (σ := Unit)
        ⟨fun _ _ => .error "cache entry not found",
         fun u _ _ _ => (.error "disk full", u)⟩
        (fun _ => none) (fun _ => some []) (fun _ => .ok "") 0 "t" () "example.com").1
      = .ok (freshResult "t" "example.com" "") ∧
    ∀ set2, (analyzeDomain (σ := Unit)
        { (⟨fun _ _ => .error "cache entry not found",
            fun u _ _ _ => (.error "disk full", u)⟩ : CacheIface Unit)
          with set := set2 }
        (fun _ => none) (fun _ => some []) (fun _ => .ok "") 0 "t" () "example.com").1
      = .ok (freshResult "t" "example.com" "") :=
  cache_write_failure_never_fails_analyze _ _ _ _ _ _ _ _ _
    (fun _ h => Except.noConfusion h) rfl

/-! ### internal/ratelimit (src/unnamed/part_008) — fixed-window token bucket

Time is a `Nat` instant in nanoseconds (`time.Second` = 10^9); `tokens` is a
Go `int`, embedded as `Int`.  `Allow` looks up or creates the client's
bucket, refills it when a full window has elapsed since its last reset, and
then grants iff a token remains.  The embedding returns the grant decision
together with the successor limiter state. -/

/-- `clientBucket` (src/unnamed/part_008). -/
structure ClientBucket where
  tokens : Int
  lastReset : Nat
deriving DecidableEq, Repr

/-- `RateLimiter` (src/unnamed/part_008); `clients` is the client table. -/
structure RateLimiter where
  limit : Int
  window : Nat
  clients : List (String × ClientBucket)
deriving DecidableEq, Repr

/-- `NewRateLimiter`: window of one second (10^9 ns), empty client table. -/
def NewRateLimiter (limitPerSecond : Int) : RateLimiter :=
  { limit := limitPerSecond, window := 1000000000, clients := [] }

/-- The bucket `Allow` operates on after its first two steps: the client's
bucket, created with a full `limit` on first sight, then refilled wholesale
(and its window restarted) when a full window has elapsed since its last
reset. -/
def RateLimiter.currentBucket (rl : RateLimiter) (now : Nat)
    (clientID : String) : ClientBucket :=
  let bucket :=
    match lookupA rl.clients clientID with
    | some b => b
    | none => { tokens := rl.limit, lastReset := now }
  if rl.window ≤ now - bucket.lastReset then
    { tokens := rl.limit, lastReset := now }
  else bucket

/-- `Allow` (src/unnamed/part_008 lines 49-77): create the bucket on first
sight with a full `limit`, refill wholesale once the window has elapsed since
the bucket's last reset, then grant and decrement iff `tokens > 0`; the
mutated bucket is stored back in the client table. -/
def spendOne (b : ClientBucket) : ClientBucket := ⟨b.tokens - 1, b.lastReset⟩

def RateLimiter.Allow (rl : RateLimiter) (now : Nat) (clientID : String) :
    Bool × RateLimiter :=
  if 0 < (rl.currentBucket now clientID).tokens then
    (true, { rl with clients := insertA rl.clients clientID (spendOne (rl.currentBucket now clientID)) })
  else
    (false, { rl with clients := insertA rl.clients clientID (rl.currentBucket now clientID) })

theorem currentBucket_empty (l : Int) (w : Nat) (t : Nat) (c : String) :
    RateLimiter.currentBucket ⟨l, w, []⟩ t c = ⟨l, t⟩ := by
  unfold RateLimiter.currentBucket
  simp [lookupA]

theorem currentBucket_single (l : Int) (w : Nat) (c : String) (k : Int)
    (t0 t : Nat) :
    RateLimiter.currentBucket ⟨l, w, [(c, ⟨k, t0⟩)]⟩ t c
      = if w ≤ t - t0 then ⟨l, t⟩ else ⟨k, t0⟩ := by
  unfold RateLimiter.currentBucket
  simp [lookupA]

/-- A sequence of `Allow` calls, given as (instant, client) pairs. -/
def runAllow (rl : RateLimiter) : List (Nat × String) → List Bool × RateLimiter
  | [] => ([], rl)
  | (t, c) :: rest =>
    let step := rl.Allow t c
    let next := runAllow step.2 rest
    (step.1 :: next.1, next.2)

theorem runAllow_cons (rl : RateLimiter) (t : Nat) (c : String)
    (rest : List (Nat × String)) :
    runAllow rl ((t, c) :: rest)
      = ((rl.Allow t c).1 :: (runAllow (rl.Allow t c).2 rest).1,
         (runAllow (rl.Allow t c).2 rest).2) := rfl

theorem Allow_fresh_grant (l : Int) (w : Nat) (t : Nat)
    (c : String) (hl : 0 < l) :
    RateLimiter.Allow ⟨l, w, []⟩ t c
      = (true, ⟨l, w, [(c, ⟨l - 1, t⟩)]⟩) := by
  unfold RateLimiter.Allow
  rw [currentBucket_empty]
  simp [spendOne, insertA, hl]

theorem Allow_single_within_grant (l : Int) (w : Nat) (c : String) (k : Int)
    (t0 t : Nat) (hw : t - t0 < w) (hk : 0 < k) :
    RateLimiter.Allow ⟨l, w, [(c, ⟨k, t0⟩)]⟩ t c
      = (true, ⟨l, w, [(c, ⟨k - 1, t0⟩)]⟩) := by
  unfold RateLimiter.Allow
  rw [currentBucket_single, if_neg (Nat.not_le.mpr hw)]
  simp [spendOne, insertA, hk]

theorem Allow_single_within_deny (l : Int) (w : Nat) (c : String) (k : Int)
    (t0 t : Nat) (hw : t - t0 < w) (hk : ¬ 0 < k) :
    RateLimiter.Allow ⟨l, w, [(c, ⟨k, t0⟩)]⟩ t c
      = (false, ⟨l, w, [(c, ⟨k, t0⟩)]⟩) := by
  unfold RateLimiter.Allow
  rw [currentBucket_single, if_neg (Nat.not_le.mpr hw)]
  simp [insertA, hk]

theorem Allow_single_refill_grant (l : Int) (w : Nat) (c : String) (k : Int)
    (t0 t : Nat) (hw : w ≤ t - t0) (hl : 0 < l) :
    RateLimiter.Allow ⟨l, w, [(c, ⟨k, t0⟩)]⟩ t c
      = (true, ⟨l, w, [(c, ⟨l - 1, t⟩)]⟩) := by
  unfold RateLimiter.Allow
  rw [currentBucket_single, if_pos hw]
  simp [spendOne, insertA, hl]

theorem runAllow_exhaust (l : Int) (w : Nat) (c : String) (t0 : Nat) :
    ∀ (ts : List Nat) (k : Int), (∀ t ∈ ts, t - t0 < w) →
    (ts.length : Int) ≤ k →
    runAllow ⟨l, w, [(c, ⟨k, t0⟩)]⟩ (ts.map (fun t => (t, c)))
      = (List.replicate ts.length true, ⟨l, w, [(c, ⟨k - ts.length, t0⟩)]⟩) := by
  intro ts
  induction ts with
  | nil => intro k _ _; simp [runAllow]
  | cons t rest ih =>
    intro k hts hk
    simp only [List.length_cons, Nat.cast_add, Nat.cast_one] at hk
    have hk0 : 0 < k := by
      have := Int.natCast_nonneg rest.length
      omega
    have htok : k - 1 - (rest.length : Int) = k - ((rest.length : Int) + 1) := by
      omega
    rw [List.map_cons, runAllow_cons,
      Allow_single_within_grant l w c k t0 t (hts t (List.mem_cons_self t rest)) hk0]
    rw [ih (k - 1) (fun u hu => hts u (List.mem_cons_of_mem t hu)) (by omega)]
    simp [List.replicate_succ, List.length_cons, Nat.cast_add, Nat.cast_one, htok]

/-- C2: starting from a fresh limiter with `limit > 0`, a client's first
`limit` `Allow` calls inside one window (at `t0` and then at instants `ts`
before `t0 + 1s`) all return true; the next call in the same window returns
false; and once a full window has elapsed since the bucket's last reset
(`t0`), the next call is granted again out of a wholesale refill to the full
`limit` — the resulting bucket holds `limit - 1` tokens (the refilled `limit`
minus the granted token) with its window restarted at the new instant. -/
theorem ratelimit_exhaust_deny_replenish (l : Nat) (hl : 0 < l) (c : String)
    (t0 : Nat) (ts : List Nat) (hlen : ts.length + 1 = l)
    (hts : ∀ t ∈ ts, t < t0 + 1000000000)
    (td : Nat) (htd : td < t0 + 1000000000)
    (t' : Nat) (ht' : t0 + 1000000000 ≤ t') :
    (runAllow (NewRateLimiter l) ((t0 :: ts).map (fun t => (t, c)))).1
      = List.replicate l true ∧
    ((runAllow (NewRateLimiter l) ((t0 :: ts).map (fun t => (t, c)))).2.Allow td c).1
      = false ∧
    (((runAllow (NewRateLimiter l) ((t0 :: ts).map (fun t => (t, c)))).2.Allow
        td c).2.Allow t' c).1 = true ∧
    lookupA (((runAllow (NewRateLimiter l)
        ((t0 :: ts).map (fun t => (t, c)))).2.Allow td c).2.Allow t' c).2.clients c
      = some ⟨(l : Int) - 1, t'⟩ := by
  have hw : (0 : Nat) < 1000000000 := by norm_num
  have hl' : (0 : Int) < (l : Int) := by exact_mod_cast hl
  have hfirst : RateLimiter.Allow (NewRateLimiter l) t0 c
      = (true, ⟨(l : Int), 1000000000, [(c, ⟨(l : Int) - 1, t0⟩)]⟩) :=
    Allow_fresh_grant (l : Int) 1000000000 t0 c hl'
  have hrest := runAllow_exhaust (l : Int) 1000000000 c t0 ts ((l : Int) - 1)
    (fun t ht => by have := hts t ht; omega)
    (by have h1 : ts.length = l - 1 := by omega
        rw [h1]; omega)
  have htok : (l : Int) - 1 - (ts.length : Int) = 0 := by
    have h1 : ts.length = l - 1 := by omega
    rw [h1]; omega
  have hrun : runAllow (NewRateLimiter l) ((t0 :: ts).map (fun t => (t, c)))
      = (true :: List.replicate ts.length true,
         ⟨(l : Int), 1000000000, [(c, ⟨0, t0⟩)]⟩) := by
    rw [List.map_cons, runAllow_cons, hfirst]
    simp only []
    rw [hrest]
    rw [htok]
  rw [hrun]
  have hdeny : RateLimiter.Allow ⟨(l : Int), 1000000000, [(c, ⟨0, t0⟩)]⟩ td c
      = (false, ⟨(l : Int), 1000000000, [(c, ⟨0, t0⟩)]⟩) :=
    Allow_single_within_deny _ _ _ _ _ _ (by omega) (by omega)
  have hgrant : RateLimiter.Allow ⟨(l : Int), 1000000000, [(c, ⟨0, t0⟩)]⟩ t' c
      = (true, ⟨(l : Int), 1000000000, [(c, ⟨(l : Int) - 1, t'⟩)]⟩) :=
    Allow_single_refill_grant _ _ _ _ _ _ (by omega) hl'
  refine ⟨?_, ?_, ?_, ?_⟩
  · have : ts.length + 1 = l := hlen
    simp [← this, List.replicate_succ]
  · simp [hdeny]
  · simp [hdeny, hgrant]
  · simp [hdeny, hgrant, lookupA]

/-- Witness for C2: limit 2, calls at 0 and 3 granted, a third call at 5
denied, and a call at 10^9 granted again with a refilled bucket. -/
theorem ratelimit_exhaust_deny_replenish_example :
    (runAllow (NewRateLimiter 2) (([0, 3] : List Nat).map (fun t => (t, "ip-A")))).1
      = List.replicate 2 true ∧
    ((runAllow (NewRateLimiter 2)
        (([0, 3] : List Nat).map (fun t => (t, "ip-A")))).2.Allow 5 "ip-A").1 = false ∧
    (((runAllow (NewRateLimiter 2)
        (([0, 3] : List Nat).map (fun t => (t, "ip-A")))).2.Allow 5 "ip-A").2.Allow
        1000000000 "ip-A").1 = true ∧
    lookupA (((runAllow (NewRateLimiter 2)
        (([0, 3] : List Nat).map (fun t => (t, "ip-A")))).2.Allow 5 "ip-A").2.Allow
        1000000000 "ip-A").2.clients "ip-A"
      = some ⟨(2 : Int) - 1, 1000000000⟩ := by
  have h := ratelimit_exhaust_deny_replenish 2 (by norm_num) "ip-A" 0 [3]
    (by decide) (by decide) 5 (by norm_num) 1000000000 (by norm_num)
  simpa using h

theorem lookupA_mem {α : Type} (l : List (String × α)) (k : String) (v : α)
    (h : lookupA l k = some v) : (k, v) ∈ l := by
  induction l with
  | nil => simp [lookupA] at h
  | cons p rest ih =>
    obtain ⟨k', v'⟩ := p
    by_cases he : k' = k
    · subst he
      rw [lookupA, if_pos rfl] at h
      injection h with h2
      subst h2
      exact List.mem_cons_self _ _
    · rw [lookupA, if_neg he] at h
      exact List.mem_cons_of_mem _ (ih h)

theorem mem_insertA {α : Type} (l : List (String × α)) (k : String) (v : α) :
    ∀ p ∈ insertA l k v, p ∈ l ∨ p = (k, v) := by
  induction l with
  | nil =>
    intro p hp
    simpa [insertA] using hp
  | cons q rest ih =>
    obtain ⟨q1, q2⟩ := q
    intro p hp
    by_cases he : q1 = k
    · subst he
      rw [insertA, if_pos rfl] at hp
      rcases List.mem_cons.mp hp with h1 | h1
      · exact Or.inr h1
      · exact Or.inl (List.mem_cons_of_mem _ h1)
    · rw [insertA, if_neg he] at hp
      rcases List.mem_cons.mp hp with h1 | h1
      · left
        rw [h1]
        exact List.mem_cons_self _ _
      · rcases ih p h1 with h2 | h2
        · exact Or.inl (List.mem_cons_of_mem _ h2)
        · exact Or.inr h2

theorem currentBucket_tokens_nonpos (rl : RateLimiter) (hlim : rl.limit ≤ 0)
    (hinv : ∀ p ∈ rl.clients, p.2.tokens ≤ 0) (t : Nat) (c : String) :
    (rl.currentBucket t c).tokens ≤ 0 := by
  unfold RateLimiter.currentBucket
  cases hlu : lookupA rl.clients c with
  | some b =>
    simp only [hlu]
    split
    · exact hlim
    · exact hinv (c, b) (lookupA_mem _ _ _ hlu)
  | none =>
    simp only [hlu]
    split
    · exact hlim
    · exact hlim

theorem Allow_nonpos_denies (rl : RateLimiter) (hlim : rl.limit ≤ 0)
    (hinv : ∀ p ∈ rl.clients, p.2.tokens ≤ 0) (t : Nat) (c : String) :
    (rl.Allow t c).1 = false ∧ (rl.Allow t c).2.limit = rl.limit ∧
    ∀ p ∈ (rl.Allow t c).2.clients, p.2.tokens ≤ 0 := by
  have hb := currentBucket_tokens_nonpos rl hlim hinv t c
  unfold RateLimiter.Allow
  rw [if_neg (by omega)]
  refine ⟨rfl, rfl, ?_⟩
  intro p hp
  rcases mem_insertA _ _ _ p hp with h | h
  · exact hinv p h
  · rw [h]
    exact hb

/-- C8: a limiter constructed with `limit = 0` denies every `Allow` call of
every client at every instant — the fresh bucket starts with 0 tokens and the
window refill also sets the count to 0, never a positive number, so elapsing
windows never help. -/
theorem zero_limit_always_denies (calls : List (Nat × String)) :
    (runAllow (NewRateLimiter 0) calls).1
      = List.replicate calls.length false := by
  suffices h : ∀ (calls : List (Nat × String)) (rl : RateLimiter),
      rl.limit ≤ 0 → (∀ p ∈ rl.clients, p.2.tokens ≤ 0) →
      (runAllow rl calls).1 = List.replicate calls.length false by
    exact h calls (NewRateLimiter 0) (by simp [NewRateLimiter])
      (by simp [NewRateLimiter])
  intro calls
  induction calls with
  | nil => intro rl _ _; simp [runAllow]
  | cons tc rest ih =>
    intro rl hlim hinv
    obtain ⟨t, c⟩ := tc
    obtain ⟨hfalse, hlim', hinv'⟩ := Allow_nonpos_denies rl hlim hinv t c
    rw [runAllow_cons, hfalse]
    simp only [List.length_cons, List.replicate_succ, List.cons.injEq]
    exact ⟨trivial, ih (rl.Allow t c).2 (hlim' ▸ hlim) hinv'⟩

/-! ### internal/cache — the Cache contract and its three backends

`Get` distinguishes the not-found outcome (absent or expired) from other
backend failures; `Set` with `ttl = 0` uses the backend's configured default
TTL; expiration uses `time.Now().After(expiration)`, i.e. an entry is gone
strictly after its expiration instant. -/

/-- The two kinds of cache `error` results: `ErrCacheNotFound` versus any
other backend failure. -/
inductive CacheError
  | notFound
  | backendFailure (msg : String)
deriving DecidableEq, Repr

/-- `cacheEntry` (internal/cache/memory.go): payload plus absolute
expiration instant. -/
structure CacheEntry where
  value : List Nat
  expiration : Nat
deriving DecidableEq, Repr

/-- The TTL actually applied by every backend's `Set`: `ttl == 0` means the
configured default. -/
def effTTL (defaultTTL ttl : Nat) : Nat := if ttl = 0 then defaultTTL else ttl

/-- `MemoryCache` (internal/cache/memory.go): a protected table from key to
entry, with a configured default TTL. -/
structure MemoryCache where
  data : List (String × CacheEntry)
  defaultTTL : Nat
deriving DecidableEq, Repr

/-- `MemoryCache.Get`: an absent key, or a present entry whose expiration
instant is strictly past, yields `ErrCacheNotFound`. -/
def MemoryCache.Get (mc : MemoryCache) (now : Nat) (key : String) :
    Except CacheError (List Nat) :=
  match lookupA mc.data key with
  | none => .error .notFound
  | some e => if e.expiration < now then .error .notFound else .ok e.value

/-- `MemoryCache.Set`: store the value with expiration `now + TTL` (default
TTL when `ttl = 0`); never fails. -/
def MemoryCache.Set (mc : MemoryCache) (now : Nat) (key : String)
    (value : List Nat) (ttl : Nat) : MemoryCache :=
  { mc with data := insertA mc.data key ⟨value, now + effTTL mc.defaultTTL ttl⟩ }

/-- `MemoryCache.Delete`: Go `delete` on the table; returns nil even when the
key is absent. -/
def MemoryCache.Delete (mc : MemoryCache) (key : String) :
    Except CacheError Unit × MemoryCache :=
  (.ok (), { mc with data := eraseA mc.data key })

/-- What a cache file on disk can hold: a well-formed JSON entry, or bytes
that fail to unmarshal. -/
inductive FileContent
  | entry (e : CacheEntry)
  | corrupt (raw : List Nat)
deriving DecidableEq, Repr

/-- `FileCache` (internal/cache/file.go, sanitized variant): base directory
and default TTL; the file system is threaded explicitly as an association
list from path to content. -/
structure FileCache where
  basePath : String
  defaultTTL : Nat
deriving DecidableEq, Repr

/-- `filepath.Join(fc.basePath, sanitizeKey(key) + ".json")`; `hash` stands
for the SHA-256 hex transform of `sanitizeKey` — only its determinism matters
to these claims, so it is a parameter. -/
def FileCache.filePath (fc : FileCache) (hash : String → String)
    (key : String) : String :=
  fc.basePath ++ "/" ++ hash key ++ ".json"

/-- `FileCache.Get`: a read failure (no such file) is `ErrCacheNotFound`; an
unmarshal failure is returned as a distinct error; an entry strictly past its
embedded expiration instant is `ErrCacheNotFound`. -/
def FileCache.Get (fc : FileCache) (hash : String → String)
    (fs : List (String × FileContent)) (now : Nat) (key : String) :
    Except CacheError (List Nat) :=
  match lookupA fs (fc.filePath hash key) with
  | none => .error .notFound
  | some (.corrupt _) => .error (.backendFailure "unmarshal error")
  | some (.entry e) => if e.expiration < now then .error .notFound else .ok e.value

/-- `FileCache.Set` on the success path of `os.WriteFile`: the file at the
key's path now holds the entry with expiration `now + TTL`. -/
def FileCache.Set (fc : FileCache) (hash : String → String)
    (fs : List (String × FileContent)) (now : Nat) (key : String)
    (value : List Nat) (ttl : Nat) :
    Except CacheError Unit × List (String × FileContent) :=
  (.ok (), insertA fs (fc.filePath hash key)
    (.entry ⟨value, now + effTTL fc.defaultTTL ttl⟩))

/-- `FileCache.Delete` returns `os.Remove(filePath)` directly: removing an
absent file fails with a path error instead of succeeding. -/
def FileCache.Delete (fc : FileCache) (hash : String → String)
    (fs : List (String × FileContent)) (key : String) :
    Except CacheError Unit × List (String × FileContent) :=
  match lookupA fs (fc.filePath hash key) with
  | none => (.error (.backendFailure "remove: no such file or directory"), fs)
  | some _ => (.ok (), eraseA fs (fc.filePath hash key))

/-- Modelled from the spec: the external Redis store is not part of this
repository; per section 4.2 "the remote backend delegates storage and
expiration enforcement to an external networked store", and the redis.go doc
comments: expired keys are treated as not found, and `Del` succeeds even if
the key doesn't exist.  The store maps keys to entries with absolute
expiration. -/
structure RedisStore where
  data : List (String × CacheEntry)
deriving DecidableEq, Repr

/-- `RedisCache` (internal/cache/redis.go): default TTL applied on
`Set(ttl = 0)`; storage delegated to the store. -/
structure RedisCache where
  defaultTTL : Nat
deriving DecidableEq, Repr

/-- `RedisCache.Get`: `redis.Nil` (absent or expired at the store) becomes
`ErrCacheNotFound`. -/
def RedisCache.Get (rc : RedisCache) (store : RedisStore) (now : Nat)
    (key : String) : Except CacheError (List Nat) :=
  match lookupA store.data key with
  | none => .error .notFound
  | some e => if e.expiration < now then .error .notFound else .ok e.value

/-- `RedisCache.Set`: effective TTL resolved locally, storage and expiration
delegated to the store. -/
def RedisCache.Set (rc : RedisCache) (store : RedisStore) (now : Nat)
    (key : String) (value : List Nat) (ttl : Nat) :
    Except CacheError Unit × RedisStore :=
  (.ok (), ⟨insertA store.data key ⟨value, now + effTTL rc.defaultTTL ttl⟩⟩)

/-- `RedisCache.Delete`: `DEL` succeeds whether or not the key exists. -/
def RedisCache.Delete (rc : RedisCache) (store : RedisStore) (key : String) :
    Except CacheError Unit × RedisStore :=
  (.ok (), ⟨eraseA store.data key⟩)

theorem lookupA_insertA_self {α : Type} (l : List (String × α)) (k : String)
    (v : α) : lookupA (insertA l k v) k = some v := by
  induction l with
  | nil => simp [insertA, lookupA]
  | cons p rest ih =>
    obtain ⟨k', v'⟩ := p
    by_cases he : k' = k
    · subst he
      simp [insertA, lookupA]
    · simp [insertA, lookupA, he, ih]

theorem lookupA_eraseA_self {α : Type} (l : List (String × α)) (k : String) :
    lookupA (eraseA l k) k = none := by
  induction l with
  | nil => simp [eraseA, lookupA]
  | cons p rest ih =>
    obtain ⟨k', v'⟩ := p
    by_cases he : k' = k
    · subst he
      simpa [eraseA, lookupA] using ih
    · simpa [eraseA, lookupA, he] using ih

/-- C3: for each of the three backends, `Set(key, v, ttl)` immediately
followed by `Get(key)` returns exactly `v`; and at any instant strictly past
the entry's expiration instant (`now + TTL`, with `ttl = 0` meaning the
configured default TTL), `Get(key)` returns the distinguished not-found
outcome — never a stale or corrupted value. -/
theorem cache_set_get_roundtrip_and_expiry :
    (∀ (mc : MemoryCache) (now : Nat) (k : String) (v : List Nat) (ttl : Nat),
      (mc.Set now k v ttl).Get now k = .ok v) ∧
    (∀ (mc : MemoryCache) (now : Nat) (k : String) (v : List Nat) (ttl t : Nat),
      now + effTTL mc.defaultTTL ttl < t →
      (mc.Set now k v ttl).Get t k = .error .notFound) ∧
    (∀ (fc : FileCache) (hash : String → String)
      (fs : List (String × FileContent)) (now : Nat) (k : String)
      (v : List Nat) (ttl : Nat),
      fc.Get hash (fc.Set hash fs now k v ttl).2 now k = .ok v) ∧
    (∀ (fc : FileCache) (hash : String → String)
      (fs : List (String × FileContent)) (now : Nat) (k : String)
      (v : List Nat) (ttl t : Nat),
      now + effTTL fc.defaultTTL ttl < t →
      fc.Get hash (fc.Set hash fs now k v ttl).2 t k = .error .notFound) ∧
    (∀ (rc : RedisCache) (store : RedisStore) (now : Nat) (k : String)
      (v : List Nat) (ttl : Nat),
      rc.Get (rc.Set store now k v ttl).2 now k = .ok v) ∧
    (∀ (rc : RedisCache) (store : RedisStore) (now : Nat) (k : String)
      (v : List Nat) (ttl t : Nat),
      now + effTTL rc.defaultTTL ttl < t →
      rc.Get (rc.Set store now k v ttl).2 t k = .error .notFound) := by
  refine ⟨?_, ?_, ?_, ?_, ?_, ?_⟩
  · intro mc now k v ttl
    unfold MemoryCache.Get MemoryCache.Set
    rw [lookupA_insertA_self]
    simp only [if_neg (by omega : ¬ now + effTTL mc.defaultTTL ttl < now)]
  · intro mc now k v ttl t ht
    unfold MemoryCache.Get MemoryCache.Set
    rw [lookupA_insertA_self]
    simp only [if_pos ht]
  · intro fc hash fs now k v ttl
    unfold FileCache.Get FileCache.Set
    rw [lookupA_insertA_self]
    simp only [if_neg (by omega : ¬ now + effTTL fc.defaultTTL ttl < now)]
  · intro fc hash fs now k v ttl t ht
    unfold FileCache.Get FileCache.Set
    rw [lookupA_insertA_self]
    simp only [if_pos ht]
  · intro rc store now k v ttl
    unfold RedisCache.Get RedisCache.Set
    rw [lookupA_insertA_self]
    simp only [if_neg (by omega : ¬ now + effTTL rc.defaultTTL ttl < now)]
  · intro rc store now k v ttl t ht
    unfold RedisCache.Get RedisCache.Set
    rw [lookupA_insertA_self]
    simp only [if_pos ht]

/-- Witness for C3: a value written at instant 5 with the 60ns default TTL is
read back at 5 and gone at 100, on all three backends. -/
theorem cache_set_get_roundtrip_and_expiry_witness :
    ((MemoryCache.Set ⟨[], 60⟩ 5 "k" [1, 2] 0).Get 5 "k" = .ok [1, 2]) ∧
    ((MemoryCache.Set ⟨[], 60⟩ 5 "k" [1, 2] 0).Get 100 "k" = .error .notFound) ∧
    (FileCache.Get ⟨"/tmp/cache", 60⟩ (fun s => s)
      (FileCache.Set ⟨"/tmp/cache", 60⟩ (fun s => s) [] 5 "k" [1, 2] 0).2 5 "k"
      = .ok [1, 2]) ∧
    (FileCache.Get ⟨"/tmp/cache", 60⟩ (fun s => s)
      (FileCache.Set ⟨"/tmp/cache", 60⟩ (fun s => s) [] 5 "k" [1, 2] 0).2 100 "k"
      = .error .notFound) ∧
    (RedisCache.Get ⟨60⟩ (RedisCache.Set ⟨60⟩ ⟨[]⟩ 5 "k" [1, 2] 0).2 5 "k"
      = .ok [1, 2]) ∧
    (RedisCache.Get ⟨60⟩ (RedisCache.Set ⟨60⟩ ⟨[]⟩ 5 "k" [1, 2] 0).2 100 "k"
      = .error .notFound) := by
  obtain ⟨h1, h2, h3, h4, h5, h6⟩ := cache_set_get_roundtrip_and_expiry
  exact ⟨h1 ⟨[], 60⟩ 5 "k" [1, 2] 0, h2 ⟨[], 60⟩ 5 "k" [1, 2] 0 100 (by decide),
    h3 ⟨"/tmp/cache", 60⟩ (fun s => s) [] 5 "k" [1, 2] 0,
    h4 ⟨"/tmp/cache", 60⟩ (fun s => s) [] 5 "k" [1, 2] 0 100 (by decide),
    h5 ⟨60⟩ ⟨[]⟩ 5 "k" [1, 2] 0, h6 ⟨60⟩ ⟨[]⟩ 5 "k" [1, 2] 0 100 (by decide)⟩

/-- C4 as stated is violated by the on-disk backend: `FileCache.Delete`
returns `os.Remove`'s error when the key's file does not exist, although the
`Cache` interface documentation ("Returns nil if the key doesn't exist") and
the method's own comment promise success; the in-process and remote backends
do return success on an absent key, and on every backend a `Get` right after
`Delete(key)` is not-found.  This theorem evaluates the backends at the
failing input. -/
theorem delete_idempotency_file_backend_violation :
    (FileCache.Delete ⟨"/tmp/cache", 60⟩ (fun s => s) [] "missing").1
      = .error (.backendFailure "remove: no such file or directory") ∧
    (MemoryCache.Delete ⟨[], 60⟩ "missing").1 = .ok () ∧
    (RedisCache.Delete ⟨60⟩ ⟨[]⟩ "missing").1 = .ok () ∧
    (MemoryCache.Delete (MemoryCache.Set ⟨[], 60⟩ 5 "k" [1, 2] 0) "k").2.Get 5 "k"
      = .error .notFound ∧
    (FileCache.Get ⟨"/tmp/cache", 60⟩ (fun s => s)
      (FileCache.Delete ⟨"/tmp/cache", 60⟩ (fun s => s)
        (FileCache.Set ⟨"/tmp/cache", 60⟩ (fun s => s) [] 5 "k" [1, 2] 0).2 "k").2
      5 "k" = .error .notFound) ∧
    (RedisCache.Get ⟨60⟩
      (RedisCache.Delete ⟨60⟩ (RedisCache.Set ⟨60⟩ ⟨[]⟩ 5 "k" [1, 2] 0).2 "k").2
      5 "k" = .error .notFound) := by
  exact ⟨rfl, rfl, rfl, rfl, rfl, rfl⟩

/-! ### internal/cache/cache.go — the factory `NewCache` -/

/-- The configuration fields the cache factory consumes. -/
structure Config where
  cacheTTL : Nat
  fileStoragePath : String
deriving DecidableEq, Repr

/-- The backend value returned by the factory. -/
inductive CacheBackend
  | memory (defaultTTL : Nat)
  | redis (defaultTTL : Nat)
  | file (basePath : String) (defaultTTL : Nat)
deriving DecidableEq, Repr

/-- `NewCache` (internal/cache/cache.go): select the backend by name; the
redis and file constructors are fallible (connectivity check, directory
creation) and are parameters; every other name falls through to the memory
backend with the configured default TTL. -/
def NewCache (mkRedis : Config → Except String CacheBackend)
    (mkFile : String → Nat → Except String CacheBackend)
    (cacheType : String) (cfg : Config) : Except String CacheBackend :=
  if cacheType = "memory" then .ok (.memory cfg.cacheTTL)
  else if cacheType = "redis" then mkRedis cfg
  else if cacheType = "file" then mkFile cfg.fileStoragePath cfg.cacheTTL
  else .ok (.memory cfg.cacheTTL)

/-- C10: for every cache type other than "memory", "redis" and "file", the
factory silently returns the in-process memory backend with the configured
default TTL and no error — whatever the redis/file constructors would do. -/
theorem newCache_unknown_type_defaults_to_memory (cacheType : String)
    (h1 : cacheType ≠ "memory") (h2 : cacheType ≠ "redis")
    (h3 : cacheType ≠ "file") (mkRedis : Config → Except String CacheBackend)
    (mkFile : String → Nat → Except String CacheBackend) (cfg : Config) :
    NewCache mkRedis mkFile cacheType cfg = .ok (.memory cfg.cacheTTL) := by
  unfold NewCache
  rw [if_neg h1, if_neg h2, if_neg h3]

/-- Witness for C10 at the unrecognized name "memcached", with constructors
that would fail if consulted. -/
theorem newCache_unknown_type_defaults_to_memory_witness :
    NewCache (fun _ => .error "unreachable") (fun _ _ => .error "unreachable")
      "memcached" ⟨300, "/tmp/cache"⟩ = .ok (.memory 300) :=
  newCache_unknown_type_defaults_to_memory "memcached" (by decide) (by decide)
    (by decide) (fun _ => .error "unreachable") (fun _ _ => .error "unreachable")
    ⟨300, "/tmp/cache"⟩

end AdsTxt
